import Mathlib

/-
Verification of the vision-mask construction in
nemo/collections/vlm/llama/data/sample_encoder.py
(method `Llama3SampleEncoder.create_vision_mask_tensor`, lines 105-142).

The 1-D token tensor is modelled as `List Int`; the returned 2-column
tensor of `[start, end]` rows is modelled as `List (Nat × Nat)`.
All index arithmetic in the source operates on non-negative tensor
indices, so positions and range endpoints are `Nat`.
-/

/-- Positions of the vision token in `tokens`, in increasing index order.
Models `(tokens == vision_token_id).nonzero(as_tuple=False).squeeze()`
from line 117 of the source. -/
def vision_token_locations (tokens : List Int) (vision_token_id : Int) : List Nat :=
  (List.range tokens.length).filter fun i => decide (tokens.get? i = some vision_token_id)

/-- Raw `[start, end]` rows built from the sorted vision-token positions
(source lines 125-133): a single position `p` yields `[[p, len(tokens)]]`;
with several positions, each position is paired with the next one, and the
last position is paired with `len(tokens)`. -/
def raw_masks : List Nat → Nat → List (Nat × Nat)
  | [], _ => []
  | [p], n => [(p, n)]
  | p :: q :: rest, n => (p, q) :: raw_masks (q :: rest) n

/-- One iteration of the consecutive-vision-token merge loop (source lines
137-140). The running state is `(last_mask_end, rows emitted so far)`.
A single-token row (`vision_mask[0] == vision_mask[1] - 1`; every end
produced by `raw_masks` is positive, so over `Nat` this is
`start + 1 = end`) has its end overwritten with `last_mask_end`; then
`last_mask_end` becomes the row's (possibly just-overwritten) end. -/
def merge_step (acc : Nat × List (Nat × Nat)) (m : Nat × Nat) : Nat × List (Nat × Nat) :=
  let e := if m.1 + 1 = m.2 then acc.1 else m.2
  (e, (m.1, e) :: acc.2)

/-- The merge loop of source lines 136-140: iterate the rows in reverse
order (`for vision_mask in reversed(vision_masks)`), threading
`last_mask_end` initialised with `init`; prepending each processed row
restores the original order. -/
def merge_consecutive (masks : List (Nat × Nat)) (init : Nat) : List (Nat × Nat) :=
  (masks.reverse.foldl merge_step (init, [])).2

/-- Model of `create_vision_mask_tensor` (source lines 105-142), with the
one fallible operation — the `vision_masks[-1][1]` indexing on line 136
that initialises `last_mask_end` — made explicit through `Option`:
`none` models an `IndexError` there. -/
def create_vision_mask_tensorE (tokens : List Int) (vision_token_id : Int) :
    Option (List (Nat × Nat)) :=
  let locations := vision_token_locations tokens vision_token_id
  if locations = [] then
    some []
  else
    let masks := raw_masks locations tokens.length
    match masks.getLast? with
    | none => none
    | some m => some (merge_consecutive masks m.2)

/-- Model of `create_vision_mask_tensor` as a plain function; the
`Option` in `create_vision_mask_tensorE` is in fact never `none`. -/
def create_vision_mask_tensor (tokens : List Int) (vision_token_id : Int) :
    List (Nat × Nat) :=
  (create_vision_mask_tensorE tokens vision_token_id).getD []

/-- Structural, head-recursive form of the merge loop, convenient for
induction; `merge_fold_eq_aux` below proves it computes exactly
`merge_consecutive`. -/
def merge_aux : List (Nat × Nat) → Nat → List (Nat × Nat)
  | [], _ => []
  | m :: rest, init =>
    let rest' := merge_aux rest init
    let le := ((rest'.head?).map Prod.snd).getD init
    (m.1, if m.1 + 1 = m.2 then le else m.2) :: rest'

/-- Composition of range construction and the merge loop, as run by
`create_vision_mask_tensor` on a non-empty list of positions (for a
non-empty position list the initial `last_mask_end` is always `n`,
because the last raw row is `[last position, n]`). -/
def build_from (locs : List Nat) (n : Nat) : List (Nat × Nat) :=
  merge_aux (raw_masks locs n) n

-- Sanity checks on concrete inputs, mirroring the spec's scenarios.
example : create_vision_mask_tensor [5, 5, 1, 2] 5 = [(0, 4), (1, 4)] := by decide
example : create_vision_mask_tensor [5, 1, 5, 2] 5 = [(0, 2), (2, 4)] := by decide
example : create_vision_mask_tensor [1, 2, 3] 9 = [] := by decide
example : create_vision_mask_tensor [5] 5 = [(0, 1)] := by decide
example : create_vision_mask_tensor [5, 5, 5, 1] 5 = [(0, 4), (1, 4), (2, 4)] := by decide

/-! ### Relating the foldl form of the merge loop to the structural form -/

theorem merge_fold_eq_aux (masks : List (Nat × Nat)) (init : Nat) :
    masks.reverse.foldl merge_step (init, []) =
      ((((merge_aux masks init).head?).map Prod.snd).getD init, merge_aux masks init) := by
  induction masks with
  | nil => rfl
  | cons m rest ih =>
    rw [List.reverse_cons, List.foldl_append, ih]
    simp only [merge_aux, merge_step, List.foldl_cons, List.foldl_nil, List.head?_cons,
      Option.map_some', Option.getD_some]

theorem merge_consecutive_eq_merge_aux (masks : List (Nat × Nat)) (init : Nat) :
    merge_consecutive masks init = merge_aux masks init := by
  rw [merge_consecutive, merge_fold_eq_aux]

/-! ### Facts about `vision_token_locations` -/

theorem mem_vision_token_locations {tokens : List Int} {vision_token_id : Int} {i : Nat} :
    i ∈ vision_token_locations tokens vision_token_id ↔
      tokens.get? i = some vision_token_id := by
  unfold vision_token_locations
  rw [List.mem_filter, List.mem_range, decide_eq_true_eq]
  constructor
  · exact fun h => h.2
  · intro h
    refine ⟨?_, h⟩
    rcases List.get?_eq_some.mp h with ⟨hlt, _⟩
    exact hlt

theorem vision_token_locations_sorted (tokens : List Int) (vision_token_id : Int) :
    List.Sorted (· < ·) (vision_token_locations tokens vision_token_id) :=
  (List.sorted_lt_range tokens.length).sublist (List.filter_sublist _)

theorem vision_token_locations_lt (tokens : List Int) (vision_token_id : Int) :
    ∀ p ∈ vision_token_locations tokens vision_token_id, p < tokens.length := by
  intro p hp
  unfold vision_token_locations at hp
  exact List.mem_range.mp (List.mem_filter.mp hp).1

theorem vision_token_locations_eq_nil_iff (tokens : List Int) (vision_token_id : Int) :
    vision_token_locations tokens vision_token_id = [] ↔ vision_token_id ∉ tokens := by
  rw [List.eq_nil_iff_forall_not_mem]
  constructor
  · intro h hmem
    rcases List.mem_iff_get?.mp hmem with ⟨i, hi⟩
    exact h i (mem_vision_token_locations.mpr hi)
  · intro h i hi
    exact h (List.mem_iff_get?.mpr ⟨i, mem_vision_token_locations.mp hi⟩)

/-! ### Facts about `raw_masks` -/

theorem raw_masks_eq_zip : ∀ (locs : List Nat) (n : Nat),
    raw_masks locs n = locs.zip (locs.tail ++ [n])
  | [], _ => rfl
  | [_], _ => rfl
  | p :: q :: rest, n => by
    rw [raw_masks, raw_masks_eq_zip (q :: rest) n]
    rfl

theorem raw_masks_getLast? : ∀ (locs : List Nat) (n : Nat), locs ≠ [] →
    ∃ s, (raw_masks locs n).getLast? = some (s, n)
  | [], _, h => absurd rfl h
  | [p], n, _ => ⟨p, rfl⟩
  | p :: q :: rest, n, _ => by
    obtain ⟨s, hs⟩ := raw_masks_getLast? (q :: rest) n (List.cons_ne_nil q rest)
    refine ⟨s, ?_⟩
    rw [raw_masks]
    rcases hr : raw_masks (q :: rest) n with _ | ⟨m, ms⟩
    · rw [hr] at hs; simp at hs
    · rw [List.getLast?_cons_cons, ← hr, hs]

/-! ### The core invariants of `build_from` -/

theorem build_from_nil (n : Nat) : build_from [] n = [] := rfl

theorem build_from_singleton (p n : Nat) : build_from [p] n = [(p, n)] := by
  simp [build_from, raw_masks, merge_aux]

theorem build_from_spec (n : Nat) :
    ∀ locs : List Nat, List.Sorted (· < ·) locs → (∀ p ∈ locs, p < n) →
      (build_from locs n).map Prod.fst = locs ∧
      (∀ m ∈ build_from locs n, m.1 < m.2 ∧ m.2 ≤ n) ∧
      List.Chain' (· ≤ ·) ((build_from locs n).map Prod.snd) ∧
      ∀ p tl, locs = p :: tl →
        ((build_from locs n).getLast?).map Prod.snd = some n ∧
        ∀ x : Nat, (∃ m ∈ build_from locs n, m.1 ≤ x ∧ x < m.2) ↔ p ≤ x ∧ x < n := by
  intro locs
  induction locs with
  | nil =>
    intro _ _
    refine ⟨rfl, ?_, ?_, ?_⟩
    · intro m hm; rw [build_from_nil] at hm; exact absurd hm (List.not_mem_nil m)
    · rw [build_from_nil]; exact List.chain'_nil
    · intro p tl h; exact absurd h (List.noConfusion ·)
  | cons p tl ih =>
    intro hsort hbd
    have hp : p < n := hbd p (List.mem_cons_self p tl)
    cases tl with
    | nil =>
      rw [build_from_singleton]
      refine ⟨rfl, ?_, ?_, ?_⟩
      · intro m hm
        rw [List.mem_singleton] at hm
        subst hm
        exact ⟨hp, Nat.le_refl n⟩
      · exact List.chain'_singleton n
      · intro p' tl' h
        injection h with h1 h2
        subst h1
        subst h2
        refine ⟨rfl, ?_⟩
        intro x
        constructor
        · rintro ⟨m, hm, h1, h2⟩
          rw [List.mem_singleton] at hm
          subst hm
          exact ⟨h1, h2⟩
        · intro ⟨h1, h2⟩
          exact ⟨(p, n), List.mem_singleton_self _, h1, h2⟩
    | cons q rest =>
      have hpq : p < q := (List.sorted_cons.mp hsort).1 q (List.mem_cons_self q rest)
      have hsort' : List.Sorted (· < ·) (q :: rest) := (List.sorted_cons.mp hsort).2
      have hbd' : ∀ a ∈ q :: rest, a < n := fun a ha => hbd a (List.mem_cons_of_mem p ha)
      obtain ⟨ih1, ih2, ih3, ih4⟩ := ih hsort' hbd'
      obtain ⟨ihLast, ihCov⟩ := ih4 q rest rfl
      -- decompose the recursive result
      rcases hB : build_from (q :: rest) n with _ | ⟨m, r''⟩
      · rw [hB] at ih1; exact absurd ih1.symm (List.noConfusion ·)
      obtain ⟨q', eq'⟩ := m
      have hq' : q' = q := by
        have hmap := ih1
        rw [hB, List.map_cons, List.cons.injEq] at hmap
        exact hmap.1
      rw [hq'] at hB
      have hqmem : (q, eq') ∈ build_from (q :: rest) n := by
        rw [hB]; exact List.mem_cons_self _ _
      have hqe : q < eq' := (ih2 _ hqmem).1
      have hen : eq' ≤ n := (ih2 _ hqmem).2
      -- unfold one step of the construction
      have hstep : build_from (p :: q :: rest) n =
          (p, if p + 1 = q then eq' else q) :: build_from (q :: rest) n := by
        show merge_aux ((p, q) :: raw_masks (q :: rest) n) n = _
        rw [merge_aux]
        have : merge_aux (raw_masks (q :: rest) n) n = build_from (q :: rest) n := rfl
        rw [this, hB]
        simp only [List.head?_cons, Option.map_some', Option.getD_some]
      set E := if p + 1 = q then eq' else q with hE
      have hqE : q ≤ E := by
        rw [hE]; split
        · exact Nat.le_of_lt hqe
        · exact Nat.le_refl q
      have hEe : E ≤ eq' := by
        rw [hE]; split
        · exact Nat.le_refl eq'
        · exact Nat.le_of_lt hqe
      have hpE : p < E := Nat.lt_of_lt_of_le hpq hqE
      have hEn : E ≤ n := Nat.le_trans hEe hen
      rw [hstep]
      refine ⟨?_, ?_, ?_, ?_⟩
      · simp only [List.map_cons]
        rw [ih1]
      · intro m hm
        rcases List.mem_cons.mp hm with rfl | hm'
        · exact ⟨hpE, hEn⟩
        · exact ih2 m hm'
      · rw [List.map_cons, hB, List.map_cons]
        rw [hB, List.map_cons] at ih3
        exact List.chain'_cons.mpr ⟨hEe, ih3⟩
      · intro p' tl' h
        have hp' : p' = p := by
          rw [List.cons.injEq] at h
          exact h.1.symm
        rw [hp']
        constructor
        · rw [hB, List.getLast?_cons_cons, ← hB]
          exact ihLast
        · intro x
          constructor
          · rintro ⟨m, hm, h1, h2⟩
            rcases List.mem_cons.mp hm with rfl | hm'
            · exact ⟨h1, Nat.lt_of_lt_of_le h2 hEn⟩
            · obtain ⟨hq1, hq2⟩ := (ihCov x).mp ⟨m, hm', h1, h2⟩
              exact ⟨Nat.le_trans (Nat.le_of_lt hpq) hq1, hq2⟩
          · rintro ⟨h1, h2⟩
            by_cases hxq : q ≤ x
            · obtain ⟨m, hm, hm1, hm2⟩ := (ihCov x).mpr ⟨hxq, h2⟩
              exact ⟨m, List.mem_cons_of_mem _ hm, hm1, hm2⟩
            · exact ⟨(p, E), List.mem_cons_self _ _, h1,
                Nat.lt_of_lt_of_le (Nat.lt_of_not_le hxq) hqE⟩

/-! ### Relating `create_vision_mask_tensor` to `build_from` -/

theorem create_vision_mask_tensorE_eq (tokens : List Int) (vision_token_id : Int) :
    create_vision_mask_tensorE tokens vision_token_id =
      some (build_from (vision_token_locations tokens vision_token_id) tokens.length) := by
  unfold create_vision_mask_tensorE
  by_cases hnil : vision_token_locations tokens vision_token_id = []
  · rw [if_pos hnil, hnil, build_from_nil]
  · rw [if_neg hnil]
    obtain ⟨s, hs⟩ := raw_masks_getLast? (vision_token_locations tokens vision_token_id)
      tokens.length hnil
    simp only [hs]
    rw [merge_consecutive_eq_merge_aux]
    rfl

theorem create_eq_build_from (tokens : List Int) (vision_token_id : Int) :
    create_vision_mask_tensor tokens vision_token_id =
      build_from (vision_token_locations tokens vision_token_id) tokens.length := by
  rw [create_vision_mask_tensor, create_vision_mask_tensorE_eq]
  rfl

/-- Convenience instance of `build_from_spec` at the actual locations. -/
theorem create_spec (tokens : List Int) (vision_token_id : Int) :
    (create_vision_mask_tensor tokens vision_token_id).map Prod.fst =
      vision_token_locations tokens vision_token_id ∧
    (∀ m ∈ create_vision_mask_tensor tokens vision_token_id,
      m.1 < m.2 ∧ m.2 ≤ tokens.length) ∧
    List.Chain' (· ≤ ·)
      ((create_vision_mask_tensor tokens vision_token_id).map Prod.snd) ∧
    ∀ p tl, vision_token_locations tokens vision_token_id = p :: tl →
      ((create_vision_mask_tensor tokens vision_token_id).getLast?).map Prod.snd =
        some tokens.length ∧
      ∀ x : Nat, (∃ m ∈ create_vision_mask_tensor tokens vision_token_id,
          m.1 ≤ x ∧ x < m.2) ↔ p ≤ x ∧ x < tokens.length := by
  rw [create_eq_build_from]
  exact build_from_spec tokens.length _
    (vision_token_locations_sorted tokens vision_token_id)
    (vision_token_locations_lt tokens vision_token_id)

/-! ### The merge loop is the identity when no two positions are adjacent -/

theorem merge_aux_raw_of_no_adjacent : ∀ (locs : List Nat) (n : Nat),
    List.Chain' (fun a b => a + 1 < b) locs →
    merge_aux (raw_masks locs n) n = raw_masks locs n
  | [], _, _ => rfl
  | [p], n, _ => by simp [raw_masks, merge_aux]
  | p :: q :: rest, n, h => by
    have hrec := merge_aux_raw_of_no_adjacent (q :: rest) n (List.chain'_cons.mp h).2
    have hne : ¬ (p + 1 = q) := Nat.ne_of_lt (List.chain'_cons.mp h).1
    show merge_aux ((p, q) :: raw_masks (q :: rest) n) n = _
    rw [merge_aux]
    simp only [hrec, if_neg hne]
    rfl

/-! ### The claims -/

/-- Claim C1, counterexample: on `tokens = [5, 5, 1, 2]` with
`vision_token_id = 5` the two occurrences are adjacent at positions 0 and
1, yet the result is not the single range `[(0, 4)]` — the absorbed second
range is kept, so the claim as stated is false. -/
theorem C1_counterexample :
    vision_token_locations [5, 5, 1, 2] 5 = [0, 1] ∧
    create_vision_mask_tensor [5, 5, 1, 2] 5 ≠ [(0, 4)] :=
  ⟨by decide, by decide⟩

/-- Claim C1 (amended): for a token sequence of length `N` whose
occurrences of `vision_token_id` are exactly two adjacent positions
`p, p + 1`, the result is `[(p, N), (p + 1, N)]` — the first range's end
is overwritten to the last range's end, and the second range is kept in
the output as well. -/
theorem C1_adjacent_merge (tokens : List Int) (vision_token_id : Int) (p : Nat)
    (h : vision_token_locations tokens vision_token_id = [p, p + 1]) :
    create_vision_mask_tensor tokens vision_token_id =
      [(p, tokens.length), (p + 1, tokens.length)] := by
  rw [create_eq_build_from, h]
  simp [build_from, raw_masks, merge_aux]

/-- Claim C1, witness: the amended statement evaluated on
`tokens = [5, 5, 1, 2]`, `vision_token_id = 5`. -/
theorem C1_adjacent_merge_witness :
    create_vision_mask_tensor [5, 5, 1, 2] 5 = [(0, 4), (1, 4)] :=
  C1_adjacent_merge [5, 5, 1, 2] 5 0 (by decide)

/-- Claim C2: the consecutive-token merge step (`merge_consecutive`,
iterating the rows in reverse with `last_mask_end` initialised to the
final range's end, overwriting the end of every one-token span and then
updating `last_mask_end`) literally yields, for `tokens = [5, 5, 1, 2]`
and `vision_token_id = 5`, raw ranges `[(0, 1), (1, 4)]`, merged ranges
`[(0, 4), (1, 4)]`, and final result `[(0, 4), (1, 4)]` — the absorbed
second range is kept in the output. -/
theorem C2_merge_literal :
    raw_masks (vision_token_locations [5, 5, 1, 2] 5) 4 = [(0, 1), (1, 4)] ∧
    merge_consecutive [(0, 1), (1, 4)] 4 = [(0, 4), (1, 4)] ∧
    create_vision_mask_tensor [5, 5, 1, 2] 5 = [(0, 4), (1, 4)] :=
  ⟨by decide, by decide, by decide⟩

/-- Claim C3, counterexample: on `tokens = [5, 5, 1, 2]` with
`vision_token_id = 5` the returned ranges `[(0, 4), (1, 4)]` are NOT
pairwise non-overlapping, refuting the non-overlap half of the claim. -/
theorem C3_counterexample :
    ¬ List.Pairwise (fun m m' : Nat × Nat => m.2 ≤ m'.1 ∨ m'.2 ≤ m.1)
      (create_vision_mask_tensor [5, 5, 1, 2] 5) := by
  decide

/-- Claim C3 (amended): for every token sequence containing at least one
occurrence of `vision_token_id` (first occurrence at `p`), the union of
the returned ranges is exactly the half-open interval from `p` to `N`,
with no gaps; the ranges need not be pairwise non-overlapping (adjacent
occurrences produce overlapping ranges). -/
theorem C3_coverage (tokens : List Int) (vision_token_id : Int) (p : Nat) (tl : List Nat)
    (h : vision_token_locations tokens vision_token_id = p :: tl) (x : Nat) :
    (∃ m ∈ create_vision_mask_tensor tokens vision_token_id, m.1 ≤ x ∧ x < m.2) ↔
      p ≤ x ∧ x < tokens.length :=
  ((create_spec tokens vision_token_id).2.2.2 p tl h).2 x

/-- Claim C3, witness: coverage evaluated on `tokens = [5, 5, 1, 2]`,
`vision_token_id = 5`, at the point `x = 2`. -/
theorem C3_coverage_witness :
    ∃ m ∈ create_vision_mask_tensor [5, 5, 1, 2] 5, m.1 ≤ 2 ∧ 2 < m.2 :=
  (C3_coverage [5, 5, 1, 2] 5 0 [1] (by decide) 2).mpr (by decide)

/-- Claim C4: for every token sequence of length `N` with exactly one
occurrence of `vision_token_id`, at position `p` (the boundary case
`p = N - 1` included), the result is the single range `[(p, N)]`. -/
theorem C4_single_occurrence (tokens : List Int) (vision_token_id : Int) (p : Nat)
    (h : vision_token_locations tokens vision_token_id = [p]) :
    create_vision_mask_tensor tokens vision_token_id = [(p, tokens.length)] := by
  rw [create_eq_build_from, h, build_from_singleton]

/-- Claim C4, witness: evaluated on `tokens = [5]`, `vision_token_id = 5`
(which is also the boundary case `p = N - 1`). -/
theorem C4_single_occurrence_witness :
    create_vision_mask_tensor [5] 5 = [(0, 1)] :=
  C4_single_occurrence [5] 5 0 (by decide)

/-- Claim C5: when the occurrences of `vision_token_id` are
`p_0 < ... < p_(k-1)` with `k ≥ 2` and no two adjacent, the result is
exactly the `k` ranges pairing each occurrence with the next one and the
last occurrence with `N` — i.e. `locs.zip (locs.tail ++ [N])`; the merge
loop changes nothing. -/
theorem C5_non_adjacent (tokens : List Int) (vision_token_id : Int) (locs : List Nat)
    (h : vision_token_locations tokens vision_token_id = locs)
    (_hk : 2 ≤ locs.length)
    (hsep : List.Chain' (fun a b => a + 1 < b) locs) :
    create_vision_mask_tensor tokens vision_token_id =
      locs.zip (locs.tail ++ [tokens.length]) := by
  rw [create_eq_build_from, h, build_from,
    merge_aux_raw_of_no_adjacent locs tokens.length hsep, raw_masks_eq_zip]

/-- Claim C5, witness: evaluated on `tokens = [5, 1, 5, 2]`,
`vision_token_id = 5`, with non-adjacent occurrences at 0 and 2. -/
theorem C5_non_adjacent_witness :
    create_vision_mask_tensor [5, 1, 5, 2] 5 = [(0, 2), (2, 4)] :=
  C5_non_adjacent [5, 1, 5, 2] 5 [0, 2] (by decide) (by decide)
    (List.chain'_cons.mpr ⟨by decide, List.chain'_singleton 2⟩)

/-- Claim C6: for every token sequence (including the empty one) with no
occurrence of `vision_token_id`, the result is the empty mask. -/
theorem C6_no_occurrence (tokens : List Int) (vision_token_id : Int)
    (h : vision_token_id ∉ tokens) :
    create_vision_mask_tensor tokens vision_token_id = [] := by
  rw [create_eq_build_from,
    (vision_token_locations_eq_nil_iff tokens vision_token_id).mpr h, build_from_nil]

/-- Claim C6, witness: evaluated on the empty sequence and on
`tokens = [1, 2, 3]` with absent sentinel 9. -/
theorem C6_no_occurrence_witness :
    create_vision_mask_tensor [] 7 = [] ∧ create_vision_mask_tensor [1, 2, 3] 9 = [] :=
  ⟨C6_no_occurrence [] 7 (by decide), C6_no_occurrence [1, 2, 3] 9 (by decide)⟩

/-- Claim C7: every range `(start, end)` the function returns satisfies
`0 ≤ start < end ≤ N`. -/
theorem C7_range_bounds (tokens : List Int) (vision_token_id : Int) (m : Nat × Nat)
    (h : m ∈ create_vision_mask_tensor tokens vision_token_id) :
    0 ≤ m.1 ∧ m.1 < m.2 ∧ m.2 ≤ tokens.length :=
  ⟨Nat.zero_le m.1, (create_spec tokens vision_token_id).2.1 m h⟩

/-- Claim C7, witness: the bounds evaluated on the range `(0, 4)` returned
for `tokens = [5, 5, 1, 2]`, `vision_token_id = 5`. -/
theorem C7_range_bounds_witness :
    (0 : Nat) ≤ 0 ∧ 0 < 4 ∧ 4 ≤ ([5, 5, 1, 2] : List Int).length :=
  C7_range_bounds [5, 5, 1, 2] 5 (0, 4) (by decide)

/-- Claim C8: the function is total over its documented input domain —
for every token list and sentinel it returns a result (the `Option` that
models the one fallible indexing step is never `none`), and in the
degenerate cases (empty sequence, absent sentinel) the result is the
empty mask. -/
theorem C8_total (tokens : List Int) (vision_token_id : Int) :
    (create_vision_mask_tensorE tokens vision_token_id).isSome = true ∧
    (vision_token_id ∉ tokens →
      create_vision_mask_tensorE tokens vision_token_id = some []) := by
  constructor
  · rw [create_vision_mask_tensorE_eq]
    rfl
  · intro h
    rw [create_vision_mask_tensorE_eq,
      (vision_token_locations_eq_nil_iff tokens vision_token_id).mpr h, build_from_nil]

/-- Claim C8, witness: totality evaluated on the empty sequence and the
degenerate result on `tokens = [1, 2, 3]` with absent sentinel 9. -/
theorem C8_total_witness :
    (create_vision_mask_tensorE [] 3).isSome = true ∧
    create_vision_mask_tensorE [1, 2, 3] 9 = some [] :=
  ⟨(C8_total [] 3).1, (C8_total [1, 2, 3] 9).2 (by decide)⟩

/-- Claim C9: the returned mask has exactly one range per occurrence of
`vision_token_id`, and the list of starts equals the list of occurrence
positions in increasing order — the merge loop never removes, adds or
reorders ranges and never modifies a start. -/
theorem C9_starts_preserved (tokens : List Int) (vision_token_id : Int) :
    (create_vision_mask_tensor tokens vision_token_id).map Prod.fst =
      vision_token_locations tokens vision_token_id ∧
    (create_vision_mask_tensor tokens vision_token_id).length =
      (vision_token_locations tokens vision_token_id).length := by
  refine ⟨(create_spec tokens vision_token_id).1, ?_⟩
  rw [← (create_spec tokens vision_token_id).1, List.length_map]

/-- Claim C10: when at least one occurrence exists, the ends of the
returned ranges are monotonically non-decreasing in output order, the
last range's end equals `N`, and no end exceeds `N`. -/
theorem C10_ends_monotone (tokens : List Int) (vision_token_id : Int)
    (h : vision_token_id ∈ tokens) :
    List.Chain' (· ≤ ·)
      ((create_vision_mask_tensor tokens vision_token_id).map Prod.snd) ∧
    ((create_vision_mask_tensor tokens vision_token_id).getLast?).map Prod.snd =
      some tokens.length ∧
    ∀ m ∈ create_vision_mask_tensor tokens vision_token_id, m.2 ≤ tokens.length := by
  obtain ⟨c1, c2, c3, c4⟩ := create_spec tokens vision_token_id
  have hne : vision_token_locations tokens vision_token_id ≠ [] := fun hnil =>
    (vision_token_locations_eq_nil_iff tokens vision_token_id).mp hnil h
  rcases hL : vision_token_locations tokens vision_token_id with _ | ⟨p, tl⟩
  · exact absurd hL hne
  · exact ⟨c3, (c4 p tl hL).1, fun m hm => (c2 m hm).2⟩

/-- Claim C10, witness: monotone ends and final end `N = 4` evaluated on
`tokens = [5, 5, 1, 2]`, `vision_token_id = 5`. -/
theorem C10_ends_monotone_witness :
    List.Chain' (· ≤ ·)
      ((create_vision_mask_tensor [5, 5, 1, 2] 5).map Prod.snd) ∧
    ((create_vision_mask_tensor [5, 5, 1, 2] 5).getLast?).map Prod.snd = some 4 :=
  ⟨(C10_ends_monotone [5, 5, 1, 2] 5 (by decide)).1,
   (C10_ends_monotone [5, 5, 1, 2] 5 (by decide)).2.1⟩
